import Mathlib

/-!
Verification of the SSVEP measurement metrics engine (`scripts/measure/metrics.py`
and its data model `scripts/measure/models.py`).

Python floats are modelled as rationals (`ℚ`); the arithmetic performed by the
metrics code (sums, means, divisions, comparisons) is exact on the inputs the
claims are about.  The one operation leaving the rationals is the square root
inside `statistics.pstdev`; it is modelled by an abstract function
`sqrtQ : ℚ → ℚ` that every statement quantifies over.  Python `None` is
modelled by `Option`, a raised exception by an `Option.none` result, and the
insertion-ordered dictionaries by association lists with unique keys.
-/

namespace Metrics

/-- Stimulus configuration metadata (`StimMetadata` in `models.py`). -/
structure StimMetadata where
  stim_id : String
  wave : Option String
  f_cfg : Option ℚ
deriving DecidableEq

/-- Environment description of one measurement (`MeasurementMeta` in `models.py`). -/
structure MeasurementMeta where
  source_path : String
  date : Option String
  commit : Option String
  browser : Option String
  os : Option String
  refresh_hz : Option ℚ
  mode : Option String
  resolution : Option String
deriving DecidableEq

/-- One frame-timing record (`FrameSample` in `models.py`). -/
structure FrameSample where
  t_ms : ℚ
  dt_ms : ℚ
deriving DecidableEq

/-- One stimulus state-transition event (`ToggleEvent` in `models.py`). -/
structure ToggleEvent where
  stim_id : String
  t_ms : ℚ
  edge : String
deriving DecidableEq

/-- Raw data of one measurement (`MeasurementData` in `models.py`); the Python
dict `stims` is an association list whose keys are unique. -/
structure MeasurementData where
  meta : MeasurementMeta
  stims : List (String × StimMetadata)
  frames : List FrameSample
  toggles : List ToggleEvent
deriving DecidableEq

/-- Frame-rate stability statistics (`FrameStats` in `models.py`). -/
structure FrameStats where
  variance : Option ℚ
  p95 : Option ℚ
  drop_ratio : Option ℚ
  dt_values : List ℚ
deriving DecidableEq

/-- Analysis result of a single stimulus (`StimResult` in `models.py`). -/
structure StimResult where
  source_path : String
  stim_id : String
  f_cfg : Option ℚ
  f_meas : Option ℚ
  abs_err : Option ℚ
  jitter_std : Option ℚ
  frame_variance : Option ℚ
  frame_p95 : Option ℚ
  drop_ratio : Option ℚ
  usable : Option Bool
  browser : Option String
  refresh_hz : Option ℚ
  mode : Option String
  date : Option String
deriving DecidableEq

/-- Aggregated result of one measurement (`RunResult` in `models.py`). -/
structure RunResult where
  measurement : MeasurementData
  frame_stats : FrameStats
  stims : List StimResult
deriving DecidableEq

/-- Arithmetic mean, as `statistics.mean` (callers only use it on nonempty lists). -/
def mean (xs : List ℚ) : ℚ := xs.sum / (xs.length : ℚ)

/-- Population variance, as `statistics.pvariance`: mean squared deviation. -/
def pvariance (xs : List ℚ) : ℚ := mean (xs.map (fun x => (x - mean xs) ^ 2))

/-- Population standard deviation, as `statistics.pstdev`; the square root on
the rationals is the abstract parameter `sqrtQ`. -/
def pstdev (sqrtQ : ℚ → ℚ) (xs : List ℚ) : ℚ := sqrtQ (pvariance xs)

/-- Linear-interpolation percentile (`_percentile` in `metrics.py`).  The two
`ValueError` raises are modelled by `none`; Python `int(rank)` truncation
coincides with the floor since `rank` is nonnegative on the non-raising path.
Python `sorted` is a stable sort, modelled by the stable `insertionSort`. -/
def percentileFn (values : List ℚ) (percentile : ℚ) : Option ℚ :=
  if values = [] then none
  else if ¬ (0 ≤ percentile ∧ percentile ≤ 100) then none
  else
    let sorted_vals := values.insertionSort (fun a b => a ≤ b)
    if sorted_vals.length = 1 then some (sorted_vals.getD 0 0)
    else
      let rank : ℚ := (percentile / 100) * ((sorted_vals.length : ℚ) - 1)
      let lower_idx : ℕ := (⌊rank⌋).toNat
      let upper_idx : ℕ := min (lower_idx + 1) (sorted_vals.length - 1)
      let weight : ℚ := rank - (lower_idx : ℚ)
      some (sorted_vals.getD lower_idx 0 * (1 - weight) + sorted_vals.getD upper_idx 0 * weight)

/-- Retained frame deltas: `[frame.dt_ms for frame in frames if frame.t_ms >= warmup_ms]`. -/
def retainedDeltas (frames : List FrameSample) (warmup_ms : ℚ) : List ℚ :=
  (frames.filter (fun f => decide (warmup_ms ≤ f.t_ms))).map FrameSample.dt_ms

/-- Frame stability analysis (`_compute_frame_stats` in `metrics.py`).  Python
`if refresh_hz:` is truthy exactly when the optional value is present and
nonzero. -/
def compute_frame_stats (frames : List FrameSample) (warmup_s : ℚ)
    (refresh_hz : Option ℚ) : FrameStats :=
  if frames = [] then { variance := none, p95 := none, drop_ratio := none, dt_values := [] }
  else
    let warmup_ms := warmup_s * 1000
    let dt_values := retainedDeltas frames warmup_ms
    if dt_values = [] then { variance := none, p95 := none, drop_ratio := none, dt_values := [] }
    else
      let variance : ℚ := if 1 < dt_values.length then pvariance dt_values else 0
      let p95 := percentileFn dt_values 95
      let dr : Option ℚ :=
        match refresh_hz with
        | none => none
        | some hz =>
          if hz = 0 then none
          else
            let threshold := (3 / 2 : ℚ) * (1000 / hz)
            let drops := (dt_values.filter (fun dt => decide (threshold < dt))).length
            some ((drops : ℚ) / (dt_values.length : ℚ))
      { variance := some variance, p95 := p95, drop_ratio := dr, dt_values := dt_values }

/-- One step of the `defaultdict(list)` grouping: append the toggle to its
id's bucket, creating the bucket at the end on first occurrence. -/
def insertGrouped (acc : List (String × List ToggleEvent)) (t : ToggleEvent) :
    List (String × List ToggleEvent) :=
  match acc with
  | [] => [(t.stim_id, [t])]
  | (k, ts) :: rest =>
    if k = t.stim_id then (k, ts ++ [t]) :: rest
    else (k, ts) :: insertGrouped rest t

/-- Grouping of qualifying toggles (`_group_toggles` in `metrics.py`): events
before warm-up or with a non-`"rise"` edge are skipped. -/
def group_toggles (toggles : List ToggleEvent) (warmup_s : ℚ) :
    List (String × List ToggleEvent) :=
  let warmup_ms := warmup_s * 1000
  toggles.foldl
    (fun acc toggle =>
      if toggle.t_ms < warmup_ms then acc
      else if toggle.edge ≠ "rise" then acc
      else insertGrouped acc toggle)
    []

/-- Consecutive toggle pairs whose period is positive (the `zip`/filter inside
`_freq_metrics`; a non-positive `delta` is skipped). -/
def validPairs (toggles : List ToggleEvent) : List (ToggleEvent × ToggleEvent) :=
  (toggles.zip toggles.tail).filter (fun pc => decide (0 < pc.2.t_ms - pc.1.t_ms))

/-- Retained inter-edge periods (`periods_ms` in `_freq_metrics`). -/
def periodsOf (toggles : List ToggleEvent) : List ℚ :=
  (validPairs toggles).map (fun pc => pc.2.t_ms - pc.1.t_ms)

/-- Midpoint timestamps paired with the retained periods (`midpoints` in
`_freq_metrics`). -/
def midpointsOf (toggles : List ToggleEvent) : List ℚ :=
  (validPairs toggles).map (fun pc => (pc.2.t_ms + pc.1.t_ms) * (1 / 2))

/-- Instantaneous frequencies (`freqs` in `_windowed_jitter`). -/
def freqsOf (periods_ms : List ℚ) : List ℚ :=
  (periods_ms.filter (fun p => decide (0 < p))).map (fun p => 1000 / p)

/-- Structural helper for the inner `while` of `_windowed_jitter`; the gas
argument bounds the number of remaining steps (`right - left` suffices, since
the loop stops as soon as `left = right`). -/
def shrinkLeftAux (midpoints_ms : List ℚ) (window_ms : ℚ) (right : ℕ) :
    ℕ → ℕ → ℕ
  | 0, left => left
  | gas + 1, left =>
    if left < right ∧ window_ms < midpoints_ms.getD right 0 - midpoints_ms.getD left 0 then
      shrinkLeftAux midpoints_ms window_ms right gas (left + 1)
    else left

/-- The inner `while` of `_windowed_jitter`: advance `left` while the window
spans more than `window_ms` (see `shrinkLeft_eq` for the loop equation). -/
def shrinkLeft (midpoints_ms : List ℚ) (window_ms : ℚ) (right left : ℕ) : ℕ :=
  shrinkLeftAux midpoints_ms window_ms right (right - left) left

/-- Value of the left pointer after the iteration of `_windowed_jitter`'s
`for` loop with the given right index (left starts at `0`). -/
def jitterLefts (midpoints_ms : List ℚ) (window_ms : ℚ) : ℕ → ℕ
  | 0 => shrinkLeft midpoints_ms window_ms 0 0
  | r + 1 => shrinkLeft midpoints_ms window_ms (r + 1) (jitterLefts midpoints_ms window_ms r)

/-- The slice `freqs[left : right + 1]` examined at the given right index. -/
def windowAt (freqs midpoints_ms : List ℚ) (window_ms : ℚ) (r : ℕ) : List ℚ :=
  let left := jitterLefts midpoints_ms window_ms r
  (freqs.drop left).take (r + 1 - left)

/-- Per-window population standard deviations collected by `_windowed_jitter`
(`window_stds`): windows with fewer than 2 samples are skipped. -/
def windowStds (sqrtQ : ℚ → ℚ) (freqs midpoints_ms : List ℚ) (window_ms : ℚ) : List ℚ :=
  (List.range freqs.length).filterMap
    (fun r =>
      let wv := windowAt freqs midpoints_ms window_ms r
      if 2 ≤ wv.length then some (pstdev sqrtQ wv) else none)

/-- Sliding-window jitter (`_windowed_jitter` in `metrics.py`). -/
def windowed_jitter (sqrtQ : ℚ → ℚ) (periods_ms midpoints_ms : List ℚ)
    (window_s : ℚ) : Option ℚ :=
  if periods_ms = [] ∨ midpoints_ms = [] then none
  else
    let freqs := freqsOf periods_ms
    if freqs.length < 2 then none
    else
      let stds := windowStds sqrtQ freqs midpoints_ms (window_s * 1000)
      if stds = [] then none else some (mean stds)

/-- Frequency metrics of one stimulus (`_freq_metrics` in `metrics.py`).
Python `1000.0 / mean_period if mean_period else None` is the `mean_period = 0`
test.  `warmup_s` is accepted and unused, as in the source. -/
def freq_metrics (sqrtQ : ℚ → ℚ) (toggles : List ToggleEvent) (f_cfg : Option ℚ)
    (warmup_s window_s : ℚ) : Option ℚ × Option ℚ × Option ℚ :=
  if toggles.length < 2 then (none, none, none)
  else
    let periods_ms := periodsOf toggles
    let midpoints := midpointsOf toggles
    if periods_ms = [] then (none, none, none)
    else
      let mean_period := mean periods_ms
      let f_meas : Option ℚ := if mean_period = 0 then none else some (1000 / mean_period)
      let abs_err : Option ℚ :=
        match f_meas, f_cfg with
        | some fm, some fc => some |fm - fc|
        | _, _ => none
      let jitter_std := windowed_jitter sqrtQ periods_ms midpoints window_s
      (f_meas, abs_err, jitter_std)

/-- Tri-state usability flag assigned by the aggregator: `abs_err < epsilon`
when the error is known, else unknown. -/
def usableFlag (abs_err : Option ℚ) (epsilon : ℚ) : Option Bool :=
  match abs_err with
  | none => none
  | some e => some (decide (e < epsilon))

/-- Dictionary lookup `measurement.stims.get(stim_id)`. -/
def lookupStim (stims : List (String × StimMetadata)) (stim_id : String) :
    Option StimMetadata :=
  (stims.find? (fun p => decide (p.1 = stim_id))).map Prod.snd

/-- The `results` accumulated by the first loop of `_compute_stim_results`:
one `StimResult` per group of qualifying toggles. -/
def groupedResults (sqrtQ : ℚ → ℚ) (measurement : MeasurementData)
    (frame_stats : FrameStats) (warmup_s window_s epsilon : ℚ) : List StimResult :=
  (group_toggles measurement.toggles warmup_s).map (fun g =>
    let stim_meta := lookupStim measurement.stims g.1
    let f_cfg := stim_meta.bind StimMetadata.f_cfg
    let fm := freq_metrics sqrtQ g.2 f_cfg warmup_s window_s
    { source_path := measurement.meta.source_path
      stim_id := g.1
      f_cfg := f_cfg
      f_meas := fm.1
      abs_err := fm.2.1
      jitter_std := fm.2.2
      frame_variance := frame_stats.variance
      frame_p95 := frame_stats.p95
      drop_ratio := FrameStats.drop_ratio frame_stats
      usable := usableFlag fm.2.1 epsilon
      browser := measurement.meta.browser
      refresh_hz := measurement.meta.refresh_hz
      mode := measurement.meta.mode
      date := measurement.meta.date })

/-- The `missing_ids` of `_compute_stim_results`:
`sorted(set(measurement.stims.keys()) - set(grouped.keys()))` (the dict keys
are unique, so set subtraction is a filter of the key list). -/
def missingIds (measurement : MeasurementData) (warmup_s : ℚ) : List String :=
  ((measurement.stims.map Prod.fst).filter
    (fun k => decide (k ∉ (group_toggles measurement.toggles warmup_s).map Prod.fst))).insertionSort
    (fun a b => a ≤ b)

/-- The placeholder results emitted by the second loop of
`_compute_stim_results` for configured stimuli without retained toggles. -/
def placeholderResults (measurement : MeasurementData) (frame_stats : FrameStats)
    (warmup_s : ℚ) : List StimResult :=
  (missingIds measurement warmup_s).map (fun sid =>
    let stim_meta := lookupStim measurement.stims sid
    { source_path := measurement.meta.source_path
      stim_id := sid
      f_cfg := stim_meta.bind StimMetadata.f_cfg
      f_meas := none
      abs_err := none
      jitter_std := none
      frame_variance := frame_stats.variance
      frame_p95 := frame_stats.p95
      drop_ratio := FrameStats.drop_ratio frame_stats
      usable := none
      browser := measurement.meta.browser
      refresh_hz := measurement.meta.refresh_hz
      mode := measurement.meta.mode
      date := measurement.meta.date })

/-- Per-stimulus results of one measurement (`_compute_stim_results` in
`metrics.py`): grouped stimuli get frequency metrics, configured-but-missing
stimuli get placeholders, and the combined list is sorted by `stim_id`
(Python `sorted` with a key is stable, modelled by the stable
`insertionSort`). -/
def compute_stim_results (sqrtQ : ℚ → ℚ) (measurement : MeasurementData)
    (frame_stats : FrameStats) (warmup_s window_s epsilon : ℚ) : List StimResult :=
  (groupedResults sqrtQ measurement frame_stats warmup_s window_s epsilon ++
    placeholderResults measurement frame_stats warmup_s).insertionSort
    (fun a b => a.stim_id ≤ b.stim_id)

/-- Entry point (`analyze_measurement` in `metrics.py`); the source defaults
are `warmup_s = 2.0`, `window_s = 1.0`, `epsilon = 0.2`. -/
def analyze_measurement (sqrtQ : ℚ → ℚ) (measurement : MeasurementData)
    (warmup_s window_s epsilon : ℚ) : RunResult :=
  let frame_stats := compute_frame_stats measurement.frames warmup_s measurement.meta.refresh_hz
  let stims := compute_stim_results sqrtQ measurement frame_stats warmup_s window_s epsilon
  { measurement := measurement, frame_stats := frame_stats, stims := stims }

end Metrics

namespace Metrics

/-- The mean of a nonempty list of positive rationals is positive. -/
theorem mean_pos {xs : List ℚ} (hne : xs ≠ []) (hpos : ∀ x ∈ xs, 0 < x) :
    0 < mean xs := by
  have hlen : 0 < (xs.length : ℚ) := by
    exact_mod_cast List.length_pos.mpr hne
  exact div_pos (List.sum_pos xs hpos hne) hlen

/-- Every retained inter-edge period is positive (the non-positive ones are
filtered out before entering `periods_ms`). -/
theorem periodsOf_pos (toggles : List ToggleEvent) :
    ∀ p ∈ periodsOf toggles, 0 < p := by
  intro p hp
  simp only [periodsOf, validPairs, List.mem_map, List.mem_filter] at hp
  obtain ⟨pc, ⟨hmem, hdec⟩, rfl⟩ := hp
  exact of_decide_eq_true hdec

/-- `percentileFn` yields `none` (the `ValueError` branches) exactly on empty
input or a percentile outside `[0, 100]`. -/
theorem percentileFn_eq_none_iff (values : List ℚ) (p : ℚ) :
    percentileFn values p = none ↔ values = [] ∨ p < 0 ∨ 100 < p := by
  unfold percentileFn
  by_cases h1 : values = []
  · simp [h1]
  · rw [if_neg h1]
    by_cases h2 : 0 ≤ p ∧ p ≤ 100
    · rw [if_neg (not_not_intro h2)]
      constructor
      · intro hsome
        exfalso
        dsimp only at hsome
        split at hsome <;> exact Option.noConfusion hsome
      · rintro (h | h | h)
        · exact absurd h h1
        · exact absurd h2.1 (not_le.mpr h)
        · exact absurd h2.2 (not_le.mpr h)
    · rw [if_pos h2]
      simp only [true_iff]
      rcases not_and_or.mp h2 with h | h
      · exact Or.inr (Or.inl (not_le.mp h))
      · exact Or.inr (Or.inr (not_le.mp h))

/-- On nonempty input and an in-range percentile, `percentileFn` succeeds. -/
theorem percentileFn_isSome {values : List ℚ} {p : ℚ} (hne : values ≠ [])
    (h0 : 0 ≤ p) (h100 : p ≤ 100) : (percentileFn values p).isSome := by
  rw [Option.isSome_iff_ne_none]
  intro hnone
  rcases (percentileFn_eq_none_iff values p).mp hnone with h | h | h
  · exact hne h
  · exact absurd h0 (not_le.mpr h)
  · exact absurd h100 (not_le.mpr h)

/-- If a delta survives warm-up filtering, the frame list was nonempty. -/
theorem frames_ne_of_retained {frames : List FrameSample} {warmup_ms : ℚ}
    (hne : retainedDeltas frames warmup_ms ≠ []) : frames ≠ [] := by
  intro h
  subst h
  exact hne rfl

/-- C6: when no frame sample reaches the warm-up cutoff (in particular for the
empty sequence), the frame stability analyzer returns the no-data sentinel:
variance, p95 and drop ratio all `none` and an empty retained-delta list. -/
theorem frame_stats_no_data_sentinel (frames : List FrameSample) (warmup_s : ℚ)
    (refresh_hz : Option ℚ)
    (h : ∀ f ∈ frames, f.t_ms < warmup_s * 1000) :
    compute_frame_stats frames warmup_s refresh_hz =
      { variance := none, p95 := none, drop_ratio := none, dt_values := [] } := by
  have hret : retainedDeltas frames (warmup_s * 1000) = [] := by
    unfold retainedDeltas
    rw [List.map_eq_nil_iff, List.filter_eq_nil_iff]
    intro f hf
    simpa using not_le.mpr (h f hf)
  by_cases hf : frames = []
  · simp [compute_frame_stats, hf]
  · simp [compute_frame_stats, hf, hret]

/-- Witness for the C6 theorem: a single pre-warm-up frame. -/
theorem frame_stats_no_data_sentinel_witness :
    (∀ f ∈ [({ t_ms := 100, dt_ms := 16 } : FrameSample)], f.t_ms < 2 * 1000) ∧
      compute_frame_stats [{ t_ms := 100, dt_ms := 16 }] 2 none =
        { variance := none, p95 := none, drop_ratio := none, dt_values := [] } :=
  ⟨by with_unfolding_all decide,
    frame_stats_no_data_sentinel [{ t_ms := 100, dt_ms := 16 }] 2 none
      (by with_unfolding_all decide)⟩

end Metrics

namespace Metrics

/-- C7: with exactly one retained frame sample the variance is reported as
`0.0` (not `none`); with two or more it is the population variance of the
retained deltas. -/
theorem frame_variance_single_and_population (frames : List FrameSample)
    (warmup_s : ℚ) (refresh_hz : Option ℚ) :
    ((retainedDeltas frames (warmup_s * 1000)).length = 1 →
      FrameStats.variance (compute_frame_stats frames warmup_s refresh_hz) = some 0)
    ∧ (2 ≤ (retainedDeltas frames (warmup_s * 1000)).length →
      FrameStats.variance (compute_frame_stats frames warmup_s refresh_hz) =
        some (pvariance (retainedDeltas frames (warmup_s * 1000)))) := by
  constructor
  · intro h1
    have hne : retainedDeltas frames (warmup_s * 1000) ≠ [] := by
      intro h
      rw [h] at h1
      simp at h1
    have hf : frames ≠ [] := frames_ne_of_retained hne
    simp [compute_frame_stats, hf, hne, h1]
  · intro h2
    have hne : retainedDeltas frames (warmup_s * 1000) ≠ [] := by
      intro h
      rw [h] at h2
      simp at h2
    have hf : frames ≠ [] := frames_ne_of_retained hne
    have h1 : 1 < (retainedDeltas frames (warmup_s * 1000)).length :=
      lt_of_lt_of_le one_lt_two h2
    simp [compute_frame_stats, hf, hne, h1]

/-- Witness for the C7 theorem: one retained frame gives variance `0.0`. -/
theorem frame_variance_single_witness :
    (retainedDeltas [({ t_ms := 3000, dt_ms := 10 } : FrameSample)] (2 * 1000)).length = 1 ∧
      FrameStats.variance (compute_frame_stats [{ t_ms := 3000, dt_ms := 10 }] 2 none) = some 0 :=
  ⟨by with_unfolding_all decide,
    (frame_variance_single_and_population [{ t_ms := 3000, dt_ms := 10 }] 2 none).1
      (by with_unfolding_all decide)⟩

/-- C2 as stated is false on the code: a present but NEGATIVE (hence
non-positive) refresh rate is truthy in Python, so a drop ratio is still
computed instead of `None`. -/
theorem drop_ratio_claim_counterexample :
    ¬ (0 < (-60 : ℚ)) ∧
      FrameStats.drop_ratio (compute_frame_stats [{ t_ms := 2000, dt_ms := 5 }] 1 (some (-60))) =
        some 1 :=
  ⟨by decide, by with_unfolding_all decide⟩

/-- C2 amended: the drop ratio is computed exactly when the refresh rate is
present and nonzero (Python truthiness), not only when it is positive; it is
the fraction of retained deltas exceeding `1.5 * (1000 / refresh_hz)`, always
in `[0, 1]`, and it is `none` when the refresh rate is unknown or zero.  For
ten retained deltas of which three exceed the threshold it equals `0.3`. -/
theorem drop_ratio_amended (frames : List FrameSample) (warmup_s hz : ℚ)
    (hne : retainedDeltas frames (warmup_s * 1000) ≠ []) (hhz : hz ≠ 0) :
    FrameStats.drop_ratio (compute_frame_stats frames warmup_s none) = none
    ∧ FrameStats.drop_ratio (compute_frame_stats frames warmup_s (some 0)) = none
    ∧ FrameStats.drop_ratio (compute_frame_stats frames warmup_s (some hz)) =
        some ((((retainedDeltas frames (warmup_s * 1000)).filter
            (fun dt => decide ((3 / 2 : ℚ) * (1000 / hz) < dt))).length : ℚ) /
          ((retainedDeltas frames (warmup_s * 1000)).length : ℚ))
    ∧ (∀ q : ℚ,
        FrameStats.drop_ratio (compute_frame_stats frames warmup_s (some hz)) = some q →
        0 ≤ q ∧ q ≤ 1)
    ∧ FrameStats.drop_ratio
        (compute_frame_stats
          [{ t_ms := 3000, dt_ms := 10 }, { t_ms := 3000, dt_ms := 10 },
            { t_ms := 3000, dt_ms := 10 }, { t_ms := 3000, dt_ms := 10 },
            { t_ms := 3000, dt_ms := 10 }, { t_ms := 3000, dt_ms := 10 },
            { t_ms := 3000, dt_ms := 10 }, { t_ms := 3000, dt_ms := 30 },
            { t_ms := 3000, dt_ms := 30 }, { t_ms := 3000, dt_ms := 30 }] 2 (some 60)) =
        some (3 / 10) := by
  have hf : frames ≠ [] := frames_ne_of_retained hne
  have heq : FrameStats.drop_ratio (compute_frame_stats frames warmup_s (some hz)) =
      some ((((retainedDeltas frames (warmup_s * 1000)).filter
          (fun dt => decide ((3 / 2 : ℚ) * (1000 / hz) < dt))).length : ℚ) /
        ((retainedDeltas frames (warmup_s * 1000)).length : ℚ)) := by
    simp [compute_frame_stats, hf, hne, hhz]
  refine ⟨?_, ?_, heq, ?_, ?_⟩
  · simp [compute_frame_stats, hf, hne]
  · simp [compute_frame_stats, hf, hne]
  · intro q hq
    rw [heq] at hq
    obtain rfl := Option.some.inj hq
    constructor
    · exact div_nonneg (Nat.cast_nonneg _) (Nat.cast_nonneg _)
    · have hlen : 0 < ((retainedDeltas frames (warmup_s * 1000)).length : ℚ) := by
        exact_mod_cast List.length_pos.mpr hne
      rw [div_le_one hlen]
      exact_mod_cast List.length_filter_le _ _
  · with_unfolding_all decide

/-- Witness for the amended C2 theorem at a concrete one-frame input. -/
theorem drop_ratio_amended_witness :
    retainedDeltas [({ t_ms := 3000, dt_ms := 5 } : FrameSample)] (2 * 1000) ≠ [] ∧
      (60 : ℚ) ≠ 0 ∧
      FrameStats.drop_ratio (compute_frame_stats [{ t_ms := 3000, dt_ms := 5 }] 2 none) = none :=
  ⟨by with_unfolding_all decide, by decide,
    (drop_ratio_amended [{ t_ms := 3000, dt_ms := 5 }] 2 60
      (by with_unfolding_all decide) (by decide)).1⟩

/-- C4: with fewer than 2 qualifying rising edges, or when every consecutive
pair has a non-positive period, all three frequency outputs are `None` and the
usability flag is unknown; non-positive periods never enter the retained
period list. -/
theorem freq_metrics_insufficient (sqrtQ : ℚ → ℚ) (toggles : List ToggleEvent)
    (f_cfg : Option ℚ) (warmup_s window_s epsilon : ℚ) :
    (toggles.length < 2 →
      freq_metrics sqrtQ toggles f_cfg warmup_s window_s = (none, none, none))
    ∧ ((∀ pc ∈ toggles.zip toggles.tail, pc.2.t_ms - pc.1.t_ms ≤ 0) →
      freq_metrics sqrtQ toggles f_cfg warmup_s window_s = (none, none, none))
    ∧ usableFlag none epsilon = none
    ∧ (∀ p ∈ periodsOf toggles, 0 < p) := by
  refine ⟨?_, ?_, rfl, periodsOf_pos toggles⟩
  · intro h
    simp [freq_metrics, h]
  · intro h
    have hper : periodsOf toggles = [] := by
      unfold periodsOf validPairs
      rw [List.map_eq_nil_iff, List.filter_eq_nil_iff]
      intro pc hpc
      simpa using not_lt.mpr (h pc hpc)
    by_cases h2 : toggles.length < 2
    · simp [freq_metrics, h2]
    · simp [freq_metrics, h2, hper]

/-- Witness for the C4 theorem: a single rising edge yields only `None`s. -/
theorem freq_metrics_insufficient_witness :
    ([({ stim_id := "s", t_ms := 2500, edge := "rise" } : ToggleEvent)].length < 2) ∧
      freq_metrics (fun q => q) [{ stim_id := "s", t_ms := 2500, edge := "rise" }]
        (some 10) 2 1 = (none, none, none) :=
  ⟨by decide,
    (freq_metrics_insufficient (fun q => q) [{ stim_id := "s", t_ms := 2500, edge := "rise" }]
      (some 10) 2 1 (1 / 5)).1 (by decide)⟩

end Metrics

namespace Metrics

/-- Identity stand-in instantiating the abstract square root in witnesses. -/
def sqrtQ0 : ℚ → ℚ := fun q => q

/-- Example rising-edge train at t = 0, 100, 200, 300 ms. -/
def exEdges : List ToggleEvent :=
  [{ stim_id := "s", t_ms := 0, edge := "rise" },
    { stim_id := "s", t_ms := 100, edge := "rise" },
    { stim_id := "s", t_ms := 200, edge := "rise" },
    { stim_id := "s", t_ms := 300, edge := "rise" }]

/-- C1: with at least 2 qualifying rising edges and a nonempty retained period
list, the measured frequency is `1000 / mean(periods_ms)`; for edges at
t = 0, 100, 200, 300 ms and configured frequency 10 Hz, the measurement is
10 Hz with absolute error 0, usable for every positive epsilon. -/
theorem measured_frequency_eq_mean_inverse (sqrtQ : ℚ → ℚ) (toggles : List ToggleEvent)
    (f_cfg : Option ℚ) (warmup_s window_s : ℚ)
    (h2 : 2 ≤ toggles.length) (hne : periodsOf toggles ≠ []) :
    (freq_metrics sqrtQ toggles f_cfg warmup_s window_s).1 =
      some (1000 / mean (periodsOf toggles))
    ∧ (∀ epsilon : ℚ, 0 < epsilon →
        (freq_metrics sqrtQ exEdges (some 10) warmup_s window_s).1 = some 10
        ∧ (freq_metrics sqrtQ exEdges (some 10) warmup_s window_s).2.1 = some 0
        ∧ usableFlag (freq_metrics sqrtQ exEdges (some 10) warmup_s window_s).2.1 epsilon =
            some true) := by
  have habs : (freq_metrics sqrtQ exEdges (some 10) warmup_s window_s).2.1 = some 0 := by
    with_unfolding_all rfl
  constructor
  · have hpos : 0 < mean (periodsOf toggles) := mean_pos hne (periodsOf_pos toggles)
    unfold freq_metrics
    rw [if_neg (not_lt.mpr h2)]
    dsimp only
    rw [if_neg hne, if_neg hpos.ne']
  · intro epsilon heps
    refine ⟨by with_unfolding_all rfl, habs, ?_⟩
    rw [habs]
    simp [usableFlag, heps]

/-- Witness for the C1 theorem at the example edge train with epsilon 1/5. -/
theorem measured_frequency_witness :
    2 ≤ exEdges.length ∧ periodsOf exEdges ≠ [] ∧ (0 : ℚ) < 1 / 5 ∧
      (freq_metrics sqrtQ0 exEdges (some 10) 2 1).1 = some (1000 / mean (periodsOf exEdges)) ∧
      usableFlag (freq_metrics sqrtQ0 exEdges (some 10) 2 1).2.1 (1 / 5) = some true :=
  ⟨by decide, by with_unfolding_all decide, by with_unfolding_all decide,
    (measured_frequency_eq_mean_inverse sqrtQ0 exEdges (some 10) 2 1 (by decide)
      (by with_unfolding_all decide)).1,
    ((measured_frequency_eq_mean_inverse sqrtQ0 exEdges (some 10) 2 1 (by decide)
      (by with_unfolding_all decide)).2 (1 / 5) (by with_unfolding_all decide)).2.2⟩

end Metrics

namespace Metrics

/-- Example measurement metadata for witnesses. -/
def exMeta : MeasurementMeta :=
  { source_path := "m.json", date := none, commit := none, browser := none,
    os := none, refresh_hz := none, mode := none, resolution := none }

/-- Example stimulus configuration for witnesses. -/
def exStimA : StimMetadata := { stim_id := "a", wave := none, f_cfg := some 10 }

/-- Example measurement whose configured stimulus has no toggle events. -/
def exNoToggleMeasurement : MeasurementData :=
  { meta := exMeta, stims := [("a", exStimA)], frames := [], toggles := [] }

/-- The no-data frame statistics sentinel, used as a run snapshot in witnesses. -/
def exSentinel : FrameStats :=
  { variance := none, p95 := none, drop_ratio := none, dt_values := [] }

/-- The placeholder result the aggregator emits for stimulus `"a"` of
`exNoToggleMeasurement`. -/
def exPlaceholderA : StimResult :=
  { source_path := "m.json", stim_id := "a", f_cfg := some 10, f_meas := none,
    abs_err := none, jitter_std := none, frame_variance := none, frame_p95 := none,
    drop_ratio := none, usable := none, browser := none, refresh_hz := none,
    mode := none, date := none }

/-- C5: for every stimulus result emitted by the aggregator, the usability
flag equals `abs_err < epsilon` when the absolute error is known, and is
unknown (`none`, not `false`) when the absolute error is `none`. -/
theorem usability_tri_state (sqrtQ : ℚ → ℚ) (measurement : MeasurementData)
    (frame_stats : FrameStats) (warmup_s window_s epsilon : ℚ) (r : StimResult)
    (hr : r ∈ compute_stim_results sqrtQ measurement frame_stats warmup_s window_s epsilon) :
    (r.abs_err = none → r.usable = none)
    ∧ ∀ e : ℚ, r.abs_err = some e → r.usable = some (decide (e < epsilon)) := by
  unfold compute_stim_results at hr
  rw [List.mem_insertionSort] at hr
  rcases List.mem_append.mp hr with hg | hp
  · unfold groupedResults at hg
    rw [List.mem_map] at hg
    obtain ⟨g, hgmem, rfl⟩ := hg
    constructor
    · intro habs
      dsimp only at habs ⊢
      rw [habs]
      rfl
    · intro e habs
      dsimp only at habs ⊢
      rw [habs]
      rfl
  · unfold placeholderResults at hp
    rw [List.mem_map] at hp
    obtain ⟨sid, hsmem, rfl⟩ := hp
    refine ⟨fun _ => rfl, fun e habs => ?_⟩
    exact absurd habs (by simp)

/-- Witness for the C5 theorem: the placeholder result of a toggle-free
measurement has unknown error and unknown usability. -/
theorem usability_tri_state_witness :
    exPlaceholderA ∈ compute_stim_results sqrtQ0 exNoToggleMeasurement exSentinel 2 1 (1 / 5)
    ∧ exPlaceholderA.abs_err = none ∧ exPlaceholderA.usable = none :=
  ⟨by with_unfolding_all decide, by decide,
    (usability_tri_state sqrtQ0 exNoToggleMeasurement exSentinel 2 1 (1 / 5) exPlaceholderA
      (by with_unfolding_all decide)).1 (by decide)⟩

end Metrics

namespace Metrics

/-- `shrinkLeft` satisfies exactly the loop equation of the source's `while`:
advance `left` by one while the window spans more than `window_ms`. -/
theorem shrinkLeft_eq (m : List ℚ) (w : ℚ) (right left : ℕ) :
    shrinkLeft m w right left =
      if left < right ∧ w < m.getD right 0 - m.getD left 0 then
        shrinkLeft m w right (left + 1)
      else left := by
  unfold shrinkLeft
  cases hg : right - left with
  | zero =>
    have hnl : ¬ left < right := by omega
    simp [shrinkLeftAux, hnl]
  | succ gas =>
    simp only [shrinkLeftAux]
    split
    · next hc =>
      have hgas : right - (left + 1) = gas := by omega
      rw [hgas]
    · rfl

/-- The left pointer never moves past `right`. -/
theorem shrinkLeftAux_le (m : List ℚ) (w : ℚ) (right : ℕ) :
    ∀ gas left, left ≤ right → shrinkLeftAux m w right gas left ≤ right
  | 0, _, h => h
  | gas + 1, left, h => by
    unfold shrinkLeftAux
    split
    · next hc => exact shrinkLeftAux_le m w right gas (left + 1) hc.1
    · exact h

/-- After shrinking, the window spans at most `w` whenever `w` is nonnegative
(either the span condition failed, or the window became a single point). -/
theorem shrinkLeftAux_spec (m : List ℚ) (w : ℚ) (right : ℕ) (hw : 0 ≤ w) :
    ∀ gas left, right - left ≤ gas → left ≤ right →
      m.getD right 0 - m.getD (shrinkLeftAux m w right gas left) 0 ≤ w
  | 0, left, hgas, hle => by
    have : left = right := by omega
    subst this
    simpa [shrinkLeftAux] using hw
  | gas + 1, left, hgas, hle => by
    unfold shrinkLeftAux
    split
    · next hc =>
      exact shrinkLeftAux_spec m w right hw gas (left + 1) (by omega) hc.1
    · next hc =>
      rcases Nat.lt_or_ge left right with hlt | hge
      · have : ¬ w < m.getD right 0 - m.getD left 0 := fun hgt => hc ⟨hlt, hgt⟩
        exact not_lt.mp this
      · have : left = right := le_antisymm hle hge
        subst this
        simpa using hw

/-- Window-span bound for `shrinkLeft` itself. -/
theorem shrinkLeft_spec (m : List ℚ) (w : ℚ) (right left : ℕ) (hw : 0 ≤ w)
    (hle : left ≤ right) :
    m.getD right 0 - m.getD (shrinkLeft m w right left) 0 ≤ w :=
  shrinkLeftAux_spec m w right hw (right - left) left le_rfl hle

/-- The per-step left pointer stays at or before its right index. -/
theorem jitterLefts_le (m : List ℚ) (w : ℚ) : ∀ r, jitterLefts m w r ≤ r
  | 0 => shrinkLeftAux_le m w 0 _ 0 le_rfl
  | r + 1 =>
    shrinkLeftAux_le m w (r + 1) _ (jitterLefts m w r)
      (le_trans (jitterLefts_le m w r) (Nat.le_succ r))

end Metrics

namespace Metrics

/-- `p95` is present exactly when a delta survived warm-up: the percentile is
then called on a nonempty list with percentile 95, so its raising branch is
unreachable from the frame analyzer. -/
theorem compute_frame_stats_p95_isSome_iff (frames : List FrameSample)
    (warmup_s : ℚ) (refresh_hz : Option ℚ) :
    (FrameStats.p95 (compute_frame_stats frames warmup_s refresh_hz)).isSome ↔
      FrameStats.dt_values (compute_frame_stats frames warmup_s refresh_hz) ≠ [] := by
  by_cases hf : frames = []
  · simp [compute_frame_stats, hf]
  · by_cases hne : retainedDeltas frames (warmup_s * 1000) = []
    · simp [compute_frame_stats, hf, hne]
    · have hs := percentileFn_isSome hne (by norm_num : (0 : ℚ) ≤ 95) (by norm_num)
      simp [compute_frame_stats, hf, hne, hs]

/-- A measured frequency reported by `freq_metrics` is always positive: it is
`1000` divided by the mean of a nonempty list of positive periods. -/
theorem freq_metrics_pos (sqrtQ : ℚ → ℚ) (toggles : List ToggleEvent)
    (f_cfg : Option ℚ) (warmup_s window_s : ℚ) :
    ∀ q : ℚ, (freq_metrics sqrtQ toggles f_cfg warmup_s window_s).1 = some q → 0 < q := by
  intro q hq
  unfold freq_metrics at hq
  split at hq
  · exact absurd hq (by simp)
  · dsimp only at hq
    split at hq
    · exact absurd hq (by simp)
    · next hne =>
      have hpos : 0 < mean (periodsOf toggles) := mean_pos hne (periodsOf_pos toggles)
      rw [if_neg hpos.ne'] at hq
      obtain rfl := Option.some.inj hq
      exact div_pos (by norm_num) hpos

/-- C10: the pipeline is total on every input: the analyzer only reaches the
percentile with a nonempty retained list (`p95` present iff some delta
survived warm-up), and every division it performs is guarded, so each
reported measured frequency is a positive rational. -/
theorem analyze_measurement_total (sqrtQ : ℚ → ℚ) (m : MeasurementData)
    (warmup_s window_s epsilon : ℚ) :
    ((FrameStats.p95 (analyze_measurement sqrtQ m warmup_s window_s epsilon).frame_stats).isSome ↔
      FrameStats.dt_values
        (analyze_measurement sqrtQ m warmup_s window_s epsilon).frame_stats ≠ [])
    ∧ ∀ r ∈ (analyze_measurement sqrtQ m warmup_s window_s epsilon).stims,
        ∀ q : ℚ, r.f_meas = some q → 0 < q := by
  constructor
  · exact compute_frame_stats_p95_isSome_iff m.frames warmup_s m.meta.refresh_hz
  · intro r hr q hq
    have hr' : r ∈ compute_stim_results sqrtQ m
        (compute_frame_stats m.frames warmup_s m.meta.refresh_hz) warmup_s window_s epsilon := hr
    unfold compute_stim_results at hr'
    rw [List.mem_insertionSort] at hr'
    rcases List.mem_append.mp hr' with hg | hp
    · unfold groupedResults at hg
      rw [List.mem_map] at hg
      obtain ⟨g, hgmem, rfl⟩ := hg
      dsimp only at hq
      exact freq_metrics_pos sqrtQ g.2 _ warmup_s window_s q hq
    · unfold placeholderResults at hp
      rw [List.mem_map] at hp
      obtain ⟨sid, hsmem, rfl⟩ := hp
      exact absurd hq (by simp)

/-- Example measurement with three qualifying rising edges for stimulus `"a"`. -/
def exToggleMeasurement : MeasurementData :=
  { meta := exMeta, stims := [("a", exStimA)], frames := [],
    toggles := [{ stim_id := "a", t_ms := 2500, edge := "rise" },
      { stim_id := "a", t_ms := 2600, edge := "rise" },
      { stim_id := "a", t_ms := 2700, edge := "rise" }] }

/-- The stimulus result the pipeline computes for `exToggleMeasurement`. -/
def exResultA : StimResult :=
  { source_path := "m.json", stim_id := "a", f_cfg := some 10, f_meas := some 10,
    abs_err := some 0, jitter_std := some 0, frame_variance := none, frame_p95 := none,
    drop_ratio := none, usable := some true, browser := none, refresh_hz := none,
    mode := none, date := none }

/-- Witness for the C10 theorem: the pipeline produces a concrete positive
measured frequency on `exToggleMeasurement`. -/
theorem analyze_measurement_total_witness :
    exResultA ∈ (analyze_measurement sqrtQ0 exToggleMeasurement 2 1 (1 / 5)).stims ∧
      exResultA.f_meas = some 10 ∧ (0 : ℚ) < 10 :=
  ⟨by with_unfolding_all decide, by decide,
    (analyze_measurement_total sqrtQ0 exToggleMeasurement 2 1 (1 / 5)).2 exResultA
      (by with_unfolding_all decide) 10 (by decide)⟩

end Metrics

namespace Metrics

/-- C9: after every step of the two-pointer sliding window the span invariant
`midpoints[right] - midpoints[left] <= window_ms` holds (for nonnegative
window lengths); the jitter is the mean of the population standard deviations
of exactly the windows holding at least 2 samples, and is `none` when fewer
than 2 instantaneous frequencies exist or no window reaches size 2. -/
theorem windowed_jitter_spec (sqrtQ : ℚ → ℚ) (periods_ms midpoints_ms : List ℚ)
    (window_s : ℚ) (hw : 0 ≤ window_s)
    (hlen : midpoints_ms.length = periods_ms.length) :
    (∀ r : ℕ,
      midpoints_ms.getD r 0 -
        midpoints_ms.getD (jitterLefts midpoints_ms (window_s * 1000) r) 0 ≤
        window_s * 1000)
    ∧ (windowed_jitter sqrtQ periods_ms midpoints_ms window_s =
        if 2 ≤ (freqsOf periods_ms).length ∧
            windowStds sqrtQ (freqsOf periods_ms) midpoints_ms (window_s * 1000) ≠ []
        then some (mean (windowStds sqrtQ (freqsOf periods_ms) midpoints_ms (window_s * 1000)))
        else none)
    ∧ (∀ s ∈ windowStds sqrtQ (freqsOf periods_ms) midpoints_ms (window_s * 1000),
        ∃ r : ℕ, r < (freqsOf periods_ms).length ∧
          2 ≤ (windowAt (freqsOf periods_ms) midpoints_ms (window_s * 1000) r).length ∧
          s = pstdev sqrtQ (windowAt (freqsOf periods_ms) midpoints_ms (window_s * 1000) r)) := by
  have hw1000 : (0 : ℚ) ≤ window_s * 1000 := mul_nonneg hw (by norm_num)
  refine ⟨?_, ?_, ?_⟩
  · intro r
    cases r with
    | zero => exact shrinkLeft_spec midpoints_ms (window_s * 1000) 0 0 hw1000 le_rfl
    | succ n =>
      exact shrinkLeft_spec midpoints_ms (window_s * 1000) (n + 1) _ hw1000
        (le_trans (jitterLefts_le midpoints_ms (window_s * 1000) n) (Nat.le_succ n))
  · unfold windowed_jitter
    by_cases hp : periods_ms = []
    · rw [if_pos (Or.inl hp), hp]
      have : freqsOf ([] : List ℚ) = [] := rfl
      rw [if_neg]
      intro hcon
      rw [this] at hcon
      simp at hcon
    · have hm : midpoints_ms ≠ [] := by
        intro h
        apply hp
        rw [h] at hlen
        exact (List.length_eq_zero.mp hlen.symm)
      rw [if_neg (by push_neg; exact ⟨hp, hm⟩)]
      dsimp only
      by_cases h2 : (freqsOf periods_ms).length < 2
      · rw [if_pos h2, if_neg]
        intro hcon
        exact absurd hcon.1 (not_le.mpr h2)
      · rw [if_neg h2]
        by_cases hstds :
            windowStds sqrtQ (freqsOf periods_ms) midpoints_ms (window_s * 1000) = []
        · rw [if_pos hstds, if_neg]
          intro hcon
          exact hcon.2 hstds
        · rw [if_neg hstds, if_pos ⟨not_lt.mp h2, hstds⟩]
  · intro s hs
    unfold windowStds at hs
    rw [List.mem_filterMap] at hs
    obtain ⟨r, hrmem, hr⟩ := hs
    rw [List.mem_range] at hrmem
    dsimp only at hr
    split at hr
    · next hgood => exact ⟨r, hrmem, hgood, (Option.some.inj hr).symm⟩
    · exact absurd hr (by simp)

/-- Witness for the C9 theorem on a two-period train: the invariant holds at
the second step and the jitter evaluates to a concrete value. -/
theorem windowed_jitter_spec_witness :
    (0 : ℚ) ≤ 1 ∧ ([(50 : ℚ), 150]).length = ([(100 : ℚ), 100]).length ∧
      (([(50 : ℚ), 150]).getD 1 0 -
        ([(50 : ℚ), 150]).getD (jitterLefts [(50 : ℚ), 150] (1 * 1000) 1) 0 ≤ 1 * 1000) ∧
      windowed_jitter sqrtQ0 [100, 100] [50, 150] 1 = some 0 :=
  ⟨by decide, by decide,
    (windowed_jitter_spec sqrtQ0 [100, 100] [50, 150] 1 (by decide) (by decide)).1 1,
    by with_unfolding_all decide⟩

end Metrics

namespace Metrics

/-- The spec's wording of the percentile computation: on the sorted values,
rank `r = (p/100) * (n-1)`, linear interpolation between the order statistics
at `floor(r)` and `ceil(r)` by fractional weight; the single value for
`n = 1`. -/
def percentileSpec (values : List ℚ) (p : ℚ) : ℚ :=
  let sorted := values.insertionSort (fun a b => a ≤ b)
  if sorted.length = 1 then sorted.getD 0 0
  else
    let r := (p / 100) * ((sorted.length : ℚ) - 1)
    let w := r - ((⌊r⌋ : ℤ) : ℚ)
    sorted.getD (⌊r⌋).toNat 0 * (1 - w) + sorted.getD (⌈r⌉).toNat 0 * w

/-- On valid input, the code's percentile equals the spec's floor/ceil
interpolation formula. -/
theorem percentileFn_eq_spec {values : List ℚ} {p : ℚ} (hne : values ≠ [])
    (h0 : 0 ≤ p) (h100 : p ≤ 100) :
    percentileFn values p = some (percentileSpec values p) := by
  unfold percentileFn percentileSpec
  rw [if_neg hne, if_neg (not_not_intro ⟨h0, h100⟩)]
  dsimp only
  by_cases h1 : (values.insertionSort (fun a b => a ≤ b)).length = 1
  · rw [if_pos h1, if_pos h1]
  · rw [if_neg h1, if_neg h1]
    set sorted := values.insertionSort (fun a b => a ≤ b) with hsorted
    set n := sorted.length with hn
    set r : ℚ := (p / 100) * ((n : ℚ) - 1) with hr
    have hnpos : 0 < n := by
      rw [hn, hsorted, List.length_insertionSort]
      exact List.length_pos.mpr hne
    have hn2 : 2 ≤ n := by omega
    have hn1 : (1 : ℚ) ≤ (n : ℚ) - 1 := by
      have : (2 : ℚ) ≤ (n : ℚ) := by exact_mod_cast hn2
      linarith
    have hr0 : 0 ≤ r := by
      rw [hr]
      exact mul_nonneg (div_nonneg h0 (by norm_num)) (by linarith)
    have hfl0 : 0 ≤ ⌊r⌋ := Int.floor_nonneg.mpr hr0
    have hcast : ((⌊r⌋.toNat : ℕ) : ℚ) = ((⌊r⌋ : ℤ) : ℚ) := by
      exact_mod_cast congrArg (fun z : ℤ => (z : ℚ)) (Int.toNat_of_nonneg hfl0)
    rw [hcast]
    have hrle : r ≤ (n : ℚ) - 1 := by
      rw [hr]
      have hdiv : p / 100 ≤ 1 := (div_le_one (by norm_num)).mpr h100
      exact mul_le_of_le_one_left (by linarith) hdiv
    by_cases hw0 : r - ((⌊r⌋ : ℤ) : ℚ) = 0
    · exact congrArg some (by rw [hw0]; ring)
    · have hfloor_lt : ((⌊r⌋ : ℤ) : ℚ) < r :=
        lt_of_le_of_ne (Int.floor_le r) (fun h => hw0 (sub_eq_zero_of_eq h.symm))
      have hceil : ⌈r⌉ = ⌊r⌋ + 1 := by
        have hle : ⌈r⌉ ≤ ⌊r⌋ + 1 := Int.ceil_le_floor_add_one r
        have hlt : ⌊r⌋ < ⌈r⌉ := by
          have := lt_of_lt_of_le hfloor_lt (Int.le_ceil r)
          exact_mod_cast this
        omega
      have hrlt : r < (n : ℚ) - 1 := by
        rcases lt_or_eq_of_le hrle with h | h
        · exact h
        · exfalso
          apply hw0
          have : ((n : ℚ) - 1) = (((n : ℤ) - 1 : ℤ) : ℚ) := by push_cast; ring
          rw [h, this, Int.floor_intCast]
          ring
      have hfl_lt : ⌊r⌋ < (n : ℤ) - 1 := by
        apply Int.floor_lt.mpr
        push_cast
        linarith
      have hmin : min (⌊r⌋.toNat + 1) (n - 1) = ⌊r⌋.toNat + 1 := by omega
      have hceilnat : (⌈r⌉).toNat = ⌊r⌋.toNat + 1 := by omega
      rw [hmin, hceilnat]

/-- C8: `percentileFn` fails exactly on empty input or a percentile outside
`[0, 100]`; on every valid input it returns the spec's linear interpolation
between order statistics at rank `(p/100) * (n-1)`, and in particular
`percentileFn [1, 2, 3, 4] 50 = 2.5`. -/
theorem percentile_raises_iff_and_interpolates (values : List ℚ) (p : ℚ) :
    (percentileFn values p = none ↔ values = [] ∨ p < 0 ∨ 100 < p)
    ∧ (values ≠ [] → 0 ≤ p → p ≤ 100 →
        percentileFn values p = some (percentileSpec values p))
    ∧ percentileFn [1, 2, 3, 4] 50 = some (5 / 2) :=
  ⟨percentileFn_eq_none_iff values p,
    fun hne h0 h100 => percentileFn_eq_spec hne h0 h100,
    by with_unfolding_all decide⟩

/-- Witness for the C8 theorem at the concrete four-element input. -/
theorem percentile_raises_iff_and_interpolates_witness :
    ([(1 : ℚ), 2, 3, 4] ≠ []) ∧ ((0 : ℚ) ≤ 50) ∧ ((50 : ℚ) ≤ 100) ∧
      percentileFn [1, 2, 3, 4] 50 = some (percentileSpec [1, 2, 3, 4] 50) ∧
      (percentileFn [] 50 = none ↔ ([] : List ℚ) = [] ∨ (50 : ℚ) < 0 ∨ (100 : ℚ) < 50) :=
  ⟨by decide, by decide, by decide,
    (percentile_raises_iff_and_interpolates [1, 2, 3, 4] 50).2.1 (by decide) (by decide)
      (by decide),
    (percentile_raises_iff_and_interpolates [] 50).1⟩

end Metrics

namespace Metrics

/-- Keys after one grouping step: unchanged if the id already has a bucket,
else the id is appended. -/
theorem insertGrouped_keys (acc : List (String × List ToggleEvent)) (t : ToggleEvent) :
    (insertGrouped acc t).map Prod.fst =
      if t.stim_id ∈ acc.map Prod.fst then acc.map Prod.fst
      else acc.map Prod.fst ++ [t.stim_id] := by
  induction acc with
  | nil => simp [insertGrouped]
  | cons hd tl ih =>
    obtain ⟨k, ts⟩ := hd
    by_cases hk : k = t.stim_id
    · subst hk
      simp [insertGrouped]
    · by_cases hmem : t.stim_id ∈ tl.map Prod.fst
      · simp [insertGrouped, hk, ih, hmem, Ne.symm hk]
      · simp [insertGrouped, hk, ih, hmem, Ne.symm hk]

/-- The grouping fold keeps the bucket keys duplicate-free. -/
theorem foldl_insertGrouped_keys_nodup (wm : ℚ) :
    ∀ (ts : List ToggleEvent) (acc : List (String × List ToggleEvent)),
      (acc.map Prod.fst).Nodup →
      ((ts.foldl (fun acc toggle =>
          if toggle.t_ms < wm then acc
          else if toggle.edge ≠ "rise" then acc
          else insertGrouped acc toggle) acc).map Prod.fst).Nodup
  | [], _, h => h
  | t :: ts, acc, h => by
    rw [List.foldl_cons]
    apply foldl_insertGrouped_keys_nodup wm ts
    by_cases h1 : t.t_ms < wm
    · simpa [h1] using h
    · by_cases h2 : t.edge ≠ "rise"
      · simpa [h1, h2] using h
      · rw [if_neg h1, if_neg h2, insertGrouped_keys]
        split
        · exact h
        · next hmem =>
          exact h.append (List.nodup_singleton _) (by simp [List.disjoint_singleton, hmem])

/-- The grouped buckets of a run have duplicate-free keys. -/
theorem group_toggles_keys_nodup (toggles : List ToggleEvent) (warmup_s : ℚ) :
    ((group_toggles toggles warmup_s).map Prod.fst).Nodup := by
  unfold group_toggles
  exact foldl_insertGrouped_keys_nodup (warmup_s * 1000) toggles [] (by simp)

/-- The grouped results carry exactly the grouped keys, in order. -/
theorem groupedResults_map_stim_id (sqrtQ : ℚ → ℚ) (measurement : MeasurementData)
    (frame_stats : FrameStats) (warmup_s window_s epsilon : ℚ) :
    (groupedResults sqrtQ measurement frame_stats warmup_s window_s epsilon).map
        StimResult.stim_id =
      (group_toggles measurement.toggles warmup_s).map Prod.fst := by
  unfold groupedResults
  rw [List.map_map]
  rfl

/-- The placeholder results carry exactly the missing ids, in order. -/
theorem placeholderResults_map_stim_id (measurement : MeasurementData)
    (frame_stats : FrameStats) (warmup_s : ℚ) :
    (placeholderResults measurement frame_stats warmup_s).map StimResult.stim_id =
      missingIds measurement warmup_s := by
  unfold placeholderResults
  rw [List.map_map]
  exact List.map_id _

/-- The ids of the final result list are a permutation of the grouped keys
followed by the missing ids. -/
theorem compute_stim_results_ids_perm (sqrtQ : ℚ → ℚ) (measurement : MeasurementData)
    (frame_stats : FrameStats) (warmup_s window_s epsilon : ℚ) :
    ((compute_stim_results sqrtQ measurement frame_stats warmup_s window_s epsilon).map
        StimResult.stim_id).Perm
      ((group_toggles measurement.toggles warmup_s).map Prod.fst ++
        missingIds measurement warmup_s) := by
  unfold compute_stim_results
  refine (List.Perm.map _ (List.perm_insertionSort _ _)).trans ?_
  rw [List.map_append, groupedResults_map_stim_id, placeholderResults_map_stim_id]

/-- The missing ids are duplicate-free and hold exactly the configured keys
without a bucket. -/
theorem missingIds_mem_iff (measurement : MeasurementData) (warmup_s : ℚ) (k : String) :
    k ∈ missingIds measurement warmup_s ↔
      k ∈ measurement.stims.map Prod.fst ∧
        k ∉ (group_toggles measurement.toggles warmup_s).map Prod.fst := by
  unfold missingIds
  rw [List.mem_insertionSort, List.mem_filter]
  simp

/-- The missing-id list has no duplicates when the configured keys are unique. -/
theorem missingIds_nodup (measurement : MeasurementData) (warmup_s : ℚ)
    (hnodup : (measurement.stims.map Prod.fst).Nodup) :
    (missingIds measurement warmup_s).Nodup := by
  unfold missingIds
  exact ((List.perm_insertionSort _ _).nodup_iff).mpr (hnodup.filter _)

/-- C3: with unique configured keys, every configured stimulus id occurs
exactly once among the aggregator's results; a configured stimulus without a
bucket of qualifying toggles gets the placeholder (frequency fields and
usability `none`, frame fields copied from the run snapshot); and the result
list is sorted by `stim_id`. -/
theorem aggregator_complete_sorted (sqrtQ : ℚ → ℚ) (measurement : MeasurementData)
    (frame_stats : FrameStats) (warmup_s window_s epsilon : ℚ)
    (hnodup : (measurement.stims.map Prod.fst).Nodup) :
    (∀ k ∈ measurement.stims.map Prod.fst,
      ((compute_stim_results sqrtQ measurement frame_stats warmup_s window_s epsilon).map
        StimResult.stim_id).count k = 1)
    ∧ (∀ k ∈ measurement.stims.map Prod.fst,
        k ∉ (group_toggles measurement.toggles warmup_s).map Prod.fst →
        ∀ r ∈ compute_stim_results sqrtQ measurement frame_stats warmup_s window_s epsilon,
          r.stim_id = k →
          r.f_meas = none ∧ r.abs_err = none ∧ r.jitter_std = none ∧ r.usable = none
          ∧ r.frame_variance = frame_stats.variance ∧ r.frame_p95 = frame_stats.p95
          ∧ StimResult.drop_ratio r = FrameStats.drop_ratio frame_stats)
    ∧ List.Pairwise (fun a b => a.stim_id ≤ b.stim_id)
        (compute_stim_results sqrtQ measurement frame_stats warmup_s window_s epsilon) := by
  refine ⟨?_, ?_, ?_⟩
  · intro k hk
    rw [(compute_stim_results_ids_perm sqrtQ measurement frame_stats warmup_s window_s
      epsilon).count_eq k, List.count_append]
    by_cases hg : k ∈ (group_toggles measurement.toggles warmup_s).map Prod.fst
    · have h1 : ((group_toggles measurement.toggles warmup_s).map Prod.fst).count k = 1 :=
        List.count_eq_one_of_mem (group_toggles_keys_nodup _ _) hg
      have h0 : (missingIds measurement warmup_s).count k = 0 :=
        List.count_eq_zero_of_not_mem
          (fun hmem => ((missingIds_mem_iff measurement warmup_s k).mp hmem).2 hg)
      rw [h1, h0]
    · have h0 : ((group_toggles measurement.toggles warmup_s).map Prod.fst).count k = 0 :=
        List.count_eq_zero_of_not_mem hg
      have h1 : (missingIds measurement warmup_s).count k = 1 :=
        List.count_eq_one_of_mem (missingIds_nodup measurement warmup_s hnodup)
          ((missingIds_mem_iff measurement warmup_s k).mpr ⟨hk, hg⟩)
      rw [h1, h0]
  · intro k hk hng r hr hrk
    unfold compute_stim_results at hr
    rw [List.mem_insertionSort] at hr
    rcases List.mem_append.mp hr with hgr | hpr
    · exfalso
      apply hng
      have hmem : r.stim_id ∈
          (groupedResults sqrtQ measurement frame_stats warmup_s window_s epsilon).map
            StimResult.stim_id := List.mem_map_of_mem _ hgr
      rw [groupedResults_map_stim_id] at hmem
      rwa [hrk] at hmem
    · unfold placeholderResults at hpr
      rw [List.mem_map] at hpr
      obtain ⟨sid, hsmem, rfl⟩ := hpr
      exact ⟨rfl, rfl, rfl, rfl, rfl, rfl, rfl⟩
  · unfold compute_stim_results
    haveI ht : IsTotal StimResult (fun a b => a.stim_id ≤ b.stim_id) :=
      ⟨fun a b => le_total a.stim_id b.stim_id⟩
    haveI htr : IsTrans StimResult (fun a b => a.stim_id ≤ b.stim_id) :=
      ⟨fun _ _ _ hab hbc => le_trans hab hbc⟩
    exact List.sorted_insertionSort _ _

/-- Witness for the C3 theorem: the toggle-free example measurement produces
exactly one result for its configured stimulus `"a"`. -/
theorem aggregator_complete_sorted_witness :
    (exNoToggleMeasurement.stims.map Prod.fst).Nodup ∧
      "a" ∈ exNoToggleMeasurement.stims.map Prod.fst ∧
      ((compute_stim_results sqrtQ0 exNoToggleMeasurement exSentinel 2 1 (1 / 5)).map
        StimResult.stim_id).count ("a") = 1 :=
  ⟨by decide, by decide,
    (aggregator_complete_sorted sqrtQ0 exNoToggleMeasurement exSentinel 2 1 (1 / 5)
      (by decide)).1 ("a") (by decide)⟩

end Metrics
